import Mathlib

/-!
Shallow embedding of the waveform-generation core of
`src/plotting/plottest.py` over the real numbers, together with proofs of
the specification's testable properties.

The Python source consists of pure closed-form arithmetic on floats; we
model the floats as real numbers.  Python's `%` operator on floats with a
positive divisor `y` returns `x - y * floor (x / y)`, which always lies in
`[0, y)`; this is the `pymod` function below.
-/

open Real

/-- `math.tau` : the circle constant, `2 * pi`. -/
noncomputable def tau : ℝ := 2 * Real.pi

/-- `A4_PITCH = 69` from the source. -/
def A4_PITCH : ℝ := 69

/-- `A4_FREQ = 440.0` from the source. -/
def A4_FREQ : ℝ := 440

/-- `midi_pitch_to_freq(pitch)` from the source:
`(2 ** ((pitch - A4_PITCH) / 12.0)) * A4_FREQ`. -/
noncomputable def midi_pitch_to_freq (pitch : ℝ) : ℝ :=
  (2 : ℝ) ^ ((pitch - A4_PITCH) / 12) * A4_FREQ

/-- Python's float `%` for real operands (divisor positive in all uses
here): `x % y = x - y * floor (x / y)`. -/
noncomputable def pymod (x y : ℝ) : ℝ := x - y * ⌊x / y⌋

/-- `f(t, note_value)` from the source: the sine waveform
`math.sin(t * midi_pitch_to_freq(note_value) * math.tau)`. -/
noncomputable def f (t note_value : ℝ) : ℝ :=
  Real.sin (t * midi_pitch_to_freq note_value * tau)

/-- `saw(n)` from the source: `(((n + math.pi) % math.tau) / math.pi) - 1.0`. -/
noncomputable def saw (n : ℝ) : ℝ :=
  pymod (n + Real.pi) tau / Real.pi - 1

/-- `square(n)` from the source:
`min(2.0, max(0.0, math.sin(n) * 100.0)) - 1.0`. -/
noncomputable def square (n : ℝ) : ℝ :=
  min 2 (max 0 (Real.sin n * 100)) - 1

/-- `triangle(n)` from the source:
`abs(saw(n + math.pi / 2.0)) * 2.0 - 1.0`. -/
noncomputable def triangle (n : ℝ) : ℝ :=
  |saw (n + Real.pi / 2)| * 2 - 1

/-- `f2(t, note_value)` from the source: the sawtooth waveform. -/
noncomputable def f2 (t note_value : ℝ) : ℝ :=
  saw (t * midi_pitch_to_freq note_value * tau)

/-- `f3(t, note_value)` from the source: the square waveform. -/
noncomputable def f3 (t note_value : ℝ) : ℝ :=
  square (t * midi_pitch_to_freq note_value * tau)

/-- `f4(t, note_value)` from the source: the triangle waveform. -/
noncomputable def f4 (t note_value : ℝ) : ℝ :=
  triangle (t * midi_pitch_to_freq note_value * tau)

/-! ### Helper lemmas -/

lemma tau_pos : 0 < tau := by
  unfold tau
  positivity

lemma tau_ne_zero : tau ≠ 0 := ne_of_gt tau_pos

/-- `pymod x y` rewritten through the fractional-part function. -/
lemma pymod_eq_fract (x y : ℝ) (hy : y ≠ 0) :
    pymod x y = y * Int.fract (x / y) := by
  unfold pymod Int.fract
  field_simp

/-- For a positive divisor, `pymod` always lands in `[0, y)`. -/
lemma pymod_mem_Ico (x y : ℝ) (hy : 0 < y) : pymod x y ∈ Set.Ico 0 y := by
  rw [pymod_eq_fract x y (ne_of_gt hy)]
  constructor
  · exact mul_nonneg (le_of_lt hy) (Int.fract_nonneg _)
  · calc y * Int.fract (x / y) < y * 1 :=
          mul_lt_mul_of_pos_left (Int.fract_lt_one _) hy
       _ = y := mul_one y

lemma freq_pos (p : ℝ) : 0 < midi_pitch_to_freq p := by
  unfold midi_pitch_to_freq A4_FREQ
  positivity

lemma freq_A4 : midi_pitch_to_freq 69 = 440 := by
  unfold midi_pitch_to_freq A4_PITCH A4_FREQ
  norm_num

/-- The sawtooth fold always lands in `[-1, 1)`. -/
lemma saw_mem_Ico (n : ℝ) : saw n ∈ Set.Ico (-1 : ℝ) 1 := by
  obtain ⟨h0, h1⟩ := pymod_mem_Ico (n + Real.pi) tau tau_pos
  unfold saw
  have hpi : (0 : ℝ) < Real.pi := Real.pi_pos
  constructor
  · have : (0 : ℝ) ≤ pymod (n + Real.pi) tau / Real.pi := div_nonneg h0 hpi.le
    linarith
  · have : pymod (n + Real.pi) tau / Real.pi < 2 := by
      rw [div_lt_iff₀ hpi]
      calc pymod (n + Real.pi) tau < tau := h1
        _ = 2 * Real.pi := rfl
    linarith

/-- The clamped square fold always lands in `[-1, 1]`. -/
lemma square_mem_Icc (n : ℝ) : square n ∈ Set.Icc (-1 : ℝ) 1 := by
  unfold square
  constructor
  · have h0 : (0 : ℝ) ≤ max 0 (Real.sin n * 100) := le_max_left 0 _
    have : (0 : ℝ) ≤ min 2 (max 0 (Real.sin n * 100)) :=
      le_min (by norm_num) h0
    linarith
  · have : min 2 (max 0 (Real.sin n * 100)) ≤ 2 := min_le_left _ _
    linarith

/-- When the dividend already lies in `[0, y)`, `pymod` is the identity. -/
lemma pymod_of_mem (x y : ℝ) (h0 : 0 ≤ x) (h1 : x < y) : pymod x y = x := by
  have hy : 0 < y := lt_of_le_of_lt h0 h1
  have hfl : ⌊x / y⌋ = 0 :=
    Int.floor_eq_zero_iff.mpr ⟨div_nonneg h0 hy.le, (div_lt_one hy).mpr h1⟩
  unfold pymod
  rw [hfl]
  push_cast
  ring

lemma saw_zero : saw 0 = 0 := by
  have hpi : (0 : ℝ) < Real.pi := Real.pi_pos
  unfold saw
  rw [zero_add, pymod_of_mem Real.pi tau hpi.le (by unfold tau; linarith)]
  field_simp

lemma saw_half_pi : saw (Real.pi / 2) = 1 / 2 := by
  have hpi : (0 : ℝ) < Real.pi := Real.pi_pos
  unfold saw
  have h1 : Real.pi / 2 + Real.pi = 3 * Real.pi / 2 := by ring
  rw [h1, pymod_of_mem (3 * Real.pi / 2) tau (by linarith) (by unfold tau; linarith)]
  field_simp
  ring

lemma freq_add_twelve (p : ℝ) :
    midi_pitch_to_freq (p + 12) = 2 * midi_pitch_to_freq p := by
  unfold midi_pitch_to_freq
  have h : (p + 12 - A4_PITCH) / 12 = (p - A4_PITCH) / 12 + 1 := by
    unfold A4_PITCH
    ring
  rw [h, Real.rpow_add (by norm_num : (0 : ℝ) < 2), Real.rpow_one]
  ring

lemma freq_81 : midi_pitch_to_freq 81 = 880 := by
  have h := freq_add_twelve 69
  norm_num [freq_A4] at h
  exact h

lemma freq_57 : midi_pitch_to_freq 57 = 220 := by
  have h := freq_add_twelve 57
  norm_num [freq_A4] at h
  linarith

/-! ### Claim theorems -/

/-- C1: for every real pitch `p`, `midi_pitch_to_freq p` equals the
equal-tempered formula `2 ^ ((p - 69) / 12) * 440` and is positive, and at
the reference pitch 69 it equals 440 exactly. -/
theorem midi_pitch_to_freq_spec :
    (∀ p : ℝ, midi_pitch_to_freq p = (2 : ℝ) ^ ((p - 69) / 12) * 440
        ∧ 0 < midi_pitch_to_freq p)
    ∧ midi_pitch_to_freq 69 = 440 :=
  ⟨fun p => ⟨rfl, freq_pos p⟩, freq_A4⟩

/-- C2: for every real `t` and `p`, the square waveform `f3 t p` lies in
`[-1, 1]` exactly (the clamp in `square` guarantees the bound). -/
theorem square_range (t p : ℝ) : f3 t p ∈ Set.Icc (-1 : ℝ) 1 :=
  square_mem_Icc _

/-- C3 counterexample: there is no `t, p` at which the square waveform
`f3 t p` leaves `[-1, 1]` — the claimed excursion outside the target range
does not exist. -/
theorem square_no_excursion : ¬ ∃ t p : ℝ, f3 t p ∉ Set.Icc (-1 : ℝ) 1 := by
  rintro ⟨t, p, h⟩
  exact h (square_mem_Icc _)

/-- C3 amended: the square-wave edge case puts some outputs strictly
inside the open interval `(-1, 1)` (a finite-slope ramp value), never
outside `[-1, 1]`. -/
theorem square_interior_value :
    ∃ t p : ℝ, f3 t p ∈ Set.Ioo (-1 : ℝ) 1 := by
  refine ⟨Real.arcsin (1 / 100) / (440 * tau), 69, ?_⟩
  unfold f3
  rw [freq_A4]
  have harg : Real.arcsin (1 / 100) / (440 * tau) * 440 * tau
      = Real.arcsin (1 / 100) := by
    field_simp [tau_ne_zero]
    ring
  rw [harg]
  unfold square
  rw [Real.sin_arcsin (by norm_num) (by norm_num)]
  have hmax : max (0 : ℝ) (1 / 100 * 100) = 1 := by norm_num
  rw [hmax]
  have hmin : min (2 : ℝ) 1 = 1 := by norm_num
  rw [hmin]
  norm_num

/-- C4: for every real `t` and `p`, the Python modulo in the sawtooth fold
lands in `[0, tau)` regardless of the sign of its first operand, and
consequently the sawtooth `f2 t p` lies in `[-1, 1)`. -/
theorem saw_mod_and_range (t p : ℝ) :
    pymod (t * midi_pitch_to_freq p * tau + Real.pi) tau ∈ Set.Ico 0 tau
      ∧ f2 t p ∈ Set.Ico (-1 : ℝ) 1 :=
  ⟨pymod_mem_Ico _ _ tau_pos, saw_mem_Ico _⟩

/-- C5: for every real `t` and `p`, the sine waveform `f t p` equals
`sin (2π · t · midi_pitch_to_freq p)` and lies in `[-1, 1]`. -/
theorem sine_def_and_range (t p : ℝ) :
    f t p = Real.sin (2 * Real.pi * (t * midi_pitch_to_freq p))
      ∧ f t p ∈ Set.Icc (-1 : ℝ) 1 := by
  constructor
  · unfold f tau
    ring_nf
  · exact ⟨Real.neg_one_le_sin _, Real.sin_le_one _⟩

/-- C6: one octave up doubles the frequency and one octave down halves it,
for every real pitch; in particular `midi_pitch_to_freq 81` is within
relative tolerance `1e-9` of 880 and `midi_pitch_to_freq 57` within the
same tolerance of 220. -/
theorem freq_octave (p : ℝ) :
    midi_pitch_to_freq (p + 12) = 2 * midi_pitch_to_freq p
      ∧ midi_pitch_to_freq (p - 12) = midi_pitch_to_freq p / 2
      ∧ |midi_pitch_to_freq 81 - 880| ≤ 1e-9 * 880
      ∧ |midi_pitch_to_freq 57 - 220| ≤ 1e-9 * 220 := by
  refine ⟨freq_add_twelve p, ?_, ?_, ?_⟩
  · have h := freq_add_twelve (p - 12)
    have hp : p - 12 + 12 = p := by ring
    rw [hp] at h
    linarith
  · rw [freq_81]
    norm_num
  · rw [freq_57]
    norm_num

/-- C7: at some `t, p` the scaled sine `sin (t · freq · tau) · 100` lies
strictly between 0 and 2, so the clamp in `square` is not reached and the
square waveform `f3 t p` lies strictly between -1 and 1. -/
theorem square_ramp_point :
    ∃ t p : ℝ,
      (0 < Real.sin (t * midi_pitch_to_freq p * tau) * 100
        ∧ Real.sin (t * midi_pitch_to_freq p * tau) * 100 < 2)
      ∧ -1 < f3 t p ∧ f3 t p < 1 := by
  refine ⟨Real.arcsin (1 / 200) / (440 * tau), 69, ?_⟩
  rw [freq_A4]
  have harg : Real.arcsin (1 / 200) / (440 * tau) * 440 * tau
      = Real.arcsin (1 / 200) := by
    field_simp [tau_ne_zero]
    ring
  unfold f3
  rw [freq_A4, harg]
  rw [Real.sin_arcsin (by norm_num) (by norm_num)]
  unfold square
  rw [Real.sin_arcsin (by norm_num) (by norm_num)]
  have hmax : max (0 : ℝ) (1 / 200 * 100) = 1 / 2 := by norm_num
  rw [hmax]
  have hmin : min (2 : ℝ) (1 / 2) = 1 / 2 := by norm_num
  rw [hmin]
  norm_num

/-- C8: for every pitch `p` and times `t1 < t2` whose fold phases share the
same period (equal floors of `(2π·t·freq + π) / (2π)`), the sawtooth is
strictly increasing: `f2 t1 p < f2 t2 p`. -/
theorem saw_monotone_within_period (p t1 t2 : ℝ) (hlt : t1 < t2)
    (hfl : ⌊(2 * Real.pi * (t1 * midi_pitch_to_freq p) + Real.pi) / (2 * Real.pi)⌋
         = ⌊(2 * Real.pi * (t2 * midi_pitch_to_freq p) + Real.pi) / (2 * Real.pi)⌋) :
    f2 t1 p < f2 t2 p := by
  have hFpos : 0 < midi_pitch_to_freq p := freq_pos p
  have hpi : (0 : ℝ) < Real.pi := Real.pi_pos
  have htau : (0 : ℝ) < tau := tau_pos
  have e1 : (t1 * midi_pitch_to_freq p * tau + Real.pi) / tau
      = (2 * Real.pi * (t1 * midi_pitch_to_freq p) + Real.pi) / (2 * Real.pi) := by
    unfold tau
    ring_nf
  have e2 : (t2 * midi_pitch_to_freq p * tau + Real.pi) / tau
      = (2 * Real.pi * (t2 * midi_pitch_to_freq p) + Real.pi) / (2 * Real.pi) := by
    unfold tau
    ring_nf
  have hfl2 : ⌊(t1 * midi_pitch_to_freq p * tau + Real.pi) / tau⌋
      = ⌊(t2 * midi_pitch_to_freq p * tau + Real.pi) / tau⌋ := by
    rw [e1, e2]
    exact hfl
  have hx : t1 * midi_pitch_to_freq p * tau < t2 * midi_pitch_to_freq p * tau := by
    have hc : 0 < midi_pitch_to_freq p * tau := mul_pos hFpos htau
    calc t1 * midi_pitch_to_freq p * tau = t1 * (midi_pitch_to_freq p * tau) := by ring
      _ < t2 * (midi_pitch_to_freq p * tau) := mul_lt_mul_of_pos_right hlt hc
      _ = t2 * midi_pitch_to_freq p * tau := by ring
  unfold f2 saw pymod
  rw [hfl2]
  have hnum : t1 * midi_pitch_to_freq p * tau + Real.pi
        - tau * ⌊(t2 * midi_pitch_to_freq p * tau + Real.pi) / tau⌋
      < t2 * midi_pitch_to_freq p * tau + Real.pi
        - tau * ⌊(t2 * midi_pitch_to_freq p * tau + Real.pi) / tau⌋ := by
    linarith
  gcongr

/-- C8 witness: at pitch 69, `t1 = 0` and `t2 = 1/3520` lie in the same
fold period and the sawtooth strictly increases between them. -/
theorem saw_monotone_within_period_witness :
    (0 : ℝ) < 1 / 3520
      ∧ ⌊(2 * Real.pi * ((0 : ℝ) * midi_pitch_to_freq 69) + Real.pi) / (2 * Real.pi)⌋
        = ⌊(2 * Real.pi * ((1 / 3520 : ℝ) * midi_pitch_to_freq 69) + Real.pi) / (2 * Real.pi)⌋
      ∧ f2 0 69 < f2 (1 / 3520) 69 := by
  have hpi : (0 : ℝ) < Real.pi := Real.pi_pos
  have h1 : (0 : ℝ) < 1 / 3520 := by norm_num
  have ea : (2 * Real.pi * ((0 : ℝ) * midi_pitch_to_freq 69) + Real.pi) / (2 * Real.pi)
      = 1 / 2 := by
    rw [freq_A4]
    field_simp
    ring
  have eb : (2 * Real.pi * ((1 / 3520 : ℝ) * midi_pitch_to_freq 69) + Real.pi) / (2 * Real.pi)
      = 5 / 8 := by
    rw [freq_A4]
    field_simp
    ring
  have h2 : ⌊(2 * Real.pi * ((0 : ℝ) * midi_pitch_to_freq 69) + Real.pi) / (2 * Real.pi)⌋
      = ⌊(2 * Real.pi * ((1 / 3520 : ℝ) * midi_pitch_to_freq 69) + Real.pi) / (2 * Real.pi)⌋ := by
    rw [ea, eb]
    norm_num
  exact ⟨h1, h2, saw_monotone_within_period 69 0 (1 / 3520) h1 h2⟩

/-- C9: for every real `t` and `p`, the triangle waveform `f4 t p` equals
`|saw (2π · t · freq p + π/2)| · 2 - 1` and lies in `[-1, 1]`. -/
theorem triangle_def_and_range (t p : ℝ) :
    f4 t p = |saw (2 * Real.pi * (t * midi_pitch_to_freq p) + Real.pi / 2)| * 2 - 1
      ∧ f4 t p ∈ Set.Icc (-1 : ℝ) 1 := by
  constructor
  · rw [show 2 * Real.pi * (t * midi_pitch_to_freq p) + Real.pi / 2
        = t * midi_pitch_to_freq p * tau + Real.pi / 2 from by unfold tau; ring]
    rfl
  · unfold f4 triangle
    obtain ⟨h0, h1⟩ := saw_mem_Ico (t * midi_pitch_to_freq p * tau + Real.pi / 2)
    have habs : |saw (t * midi_pitch_to_freq p * tau + Real.pi / 2)| ≤ 1 :=
      abs_le.mpr ⟨h0, le_of_lt h1⟩
    have hnn : (0 : ℝ) ≤ |saw (t * midi_pitch_to_freq p * tau + Real.pi / 2)| :=
      abs_nonneg _
    constructor
    · linarith
    · linarith

/-- C10: at time zero every pitch gives `f2 0 p = 0` (sawtooth),
`f4 0 p = 0` (triangle), and `f3 0 p = -1` (square clamps `sin 0 = 0` to
the lower level). -/
theorem waveforms_at_zero (p : ℝ) :
    f2 0 p = 0 ∧ f4 0 p = 0 ∧ f3 0 p = -1 := by
  have hz : (0 : ℝ) * midi_pitch_to_freq p * tau = 0 := by ring
  refine ⟨?_, ?_, ?_⟩
  · unfold f2
    rw [hz, saw_zero]
  · unfold f4 triangle
    rw [hz, zero_add, saw_half_pi,
      abs_of_pos (by norm_num : (0 : ℝ) < 1 / 2)]
    norm_num
  · unfold f3 square
    rw [hz, Real.sin_zero]
    norm_num
